import Mathlib

/-!
# Verification of the AnalysisToolkit process-memory-map parser

A shallow embedding of `modules/utility/src/ProcessMemoryParser.cpp` (and its
header `ProcessMemoryParser.h`).  C++ `std::string` values are modelled as
`List Char`; the unsigned machine integers (`uintptr_t`, `uint64_t`,
`size_t`, all 64-bit on the target platforms; `uint32_t` for inodes) are
modelled as `Nat` with explicit reduction modulo `2 ^ 64` (resp. `2 ^ 32`)
exactly where the C++ code overflows or truncates.  File I/O is modelled by an
inductive `MapsFile` describing the outcome of opening `/proc/<pid>/maps`:
either the list of lines `std::getline` would deliver, or the `errno` class of
the failed `open`.
-/

namespace AnalysisToolkit

/-- `String` literal to the `List Char` model of `std::string`. -/
def chars (s : String) : List Char := s.data

/-- `std::isspace` in the default "C" locale (the classification used both by
`istringstream`'s `operator>>` and by `strtoull`). -/
def isCppSpace (c : Char) : Bool :=
  c = ' ' || c = '\t' || c = '\n' || c = '\x0b' || c = '\x0c' || c = '\r'

/-- One formatted string extraction `iss >> tok` from an `istringstream`:
skip leading whitespace, then take the maximal run of non-whitespace
characters; the extraction fails (failbit) iff no character was extracted.
Returns the token and the unread remainder of the buffer. -/
def extractToken (s : List Char) : Option (List Char × List Char) :=
  let s1 := s.dropWhile isCppSpace
  if s1.isEmpty then none
  else some (s1.takeWhile (fun c => !isCppSpace c), s1.dropWhile (fun c => !isCppSpace c))

/-- Value of a hexadecimal digit character, `none` for a non-digit. -/
def hexVal (c : Char) : Option Nat :=
  if '0' ≤ c ∧ c ≤ '9' then some (c.toNat - '0'.toNat)
  else if 'a' ≤ c ∧ c ≤ 'f' then some (c.toNat - 'a'.toNat + 10)
  else if 'A' ≤ c ∧ c ≤ 'F' then some (c.toNat - 'A'.toNat + 10)
  else none

/-- Value of a decimal digit character, `none` for a non-digit. -/
def decVal (c : Char) : Option Nat :=
  if '0' ≤ c ∧ c ≤ '9' then some (c.toNat - '0'.toNat) else none

/-- `ULLONG_MAX + 1` (= `ULONG_MAX + 1` on the LP64 Linux target): the
modulus of `unsigned long long` / `unsigned long` / `uintptr_t` / `size_t`. -/
def ullongMod : Nat := 2 ^ 64

/-- `2 ^ 32`: the modulus of `uint32_t` (the inode field). -/
def uint32Mod : Nat := 2 ^ 32

/-- Common core of `std::stoull(s, nullptr, 16)` and `std::stoul(s)` (both
backed by `strtoull`/`strtoul`, which have the same 64-bit range on LP64):
skip whitespace, accept one optional sign, optionally (base 16) a `0x`/`0X`
prefix when a hex digit follows, then the maximal run of digits.  `none`
models a thrown exception: `std::invalid_argument` when no digit was
consumed, `std::out_of_range` when the digit run exceeds the 64-bit range.
A `-` sign wraps the value modulo `2 ^ 64`, as `strtoull` does. -/
def stoullCore (base : Nat) (digitVal : Char → Option Nat) (hexPrefix : Bool)
    (s : List Char) : Option Nat :=
  let s1 := s.dropWhile isCppSpace
  let signed : Bool × List Char :=
    match s1 with
    | '-' :: rest => (true, rest)
    | '+' :: rest => (false, rest)
    | other => (false, other)
  let body : List Char :=
    if hexPrefix then
      match signed.2 with
      | '0' :: x :: rest =>
        if (x = 'x' || x = 'X') &&
            (match rest with | c :: _ => (digitVal c).isSome | [] => false)
        then rest else '0' :: x :: rest
      | other => other
    else signed.2
  let ds := body.takeWhile (fun c => (digitVal c).isSome)
  if ds.isEmpty then none
  else
    let v := ds.foldl (fun acc c => acc * base + ((digitVal c).getD 0)) 0
    if ullongMod ≤ v then none
    else some (if signed.1 then (ullongMod - v) % ullongMod else v)

/-- `std::stoull(s, nullptr, 16)` as used on the address and offset tokens. -/
def stoull16 (s : List Char) : Option Nat := stoullCore 16 hexVal true s

/-- `std::stoul(s)` (base 10) as used on the inode token. -/
def stoul10 (s : List Char) : Option Nat := stoullCore 10 decVal false s

/-- `struct MemoryPermissions`: four independent booleans, each
default-initialised to `false` as in the C++ member initialisers. -/
structure MemoryPermissions where
  readable : Bool := false
  writable : Bool := false
  executable : Bool := false
  private_mapping : Bool := false
deriving DecidableEq

/-- `MemoryPermissions::toString`: four position-significant characters. -/
def MemoryPermissions.toString (p : MemoryPermissions) : List Char :=
  [if p.readable then 'r' else '-',
   if p.writable then 'w' else '-',
   if p.executable then 'x' else '-',
   if p.private_mapping then 'p' else 's']

/-- `MemoryPermissions::fromString`: positions 0–3 are read independently
when the string has at least four characters; otherwise the all-false
default is returned unchanged. -/
def MemoryPermissions.fromString (s : List Char) : MemoryPermissions :=
  if 4 ≤ s.length then
    { readable := s.getD 0 ' ' == 'r'
      writable := s.getD 1 ' ' == 'w'
      executable := s.getD 2 ' ' == 'x'
      private_mapping := s.getD 3 ' ' == 'p' }
  else {}

/-- `class MemoryRegion`: the constructor stores every argument verbatim and
the defaults match the C++ in-class member initialisers. -/
structure MemoryRegion where
  start_address : Nat := 0
  end_address : Nat := 0
  permissions : MemoryPermissions := {}
  offset : Nat := 0
  device : List Char := []
  inode : Nat := 0
  pathname : List Char := []
  original_line : List Char := []
deriving DecidableEq

/-- `MemoryRegion::contains`: `address >= start_address_ && address < end_address_`. -/
def MemoryRegion.contains (r : MemoryRegion) (address : Nat) : Bool :=
  decide (r.start_address ≤ address) && decide (address < r.end_address)

/-- `MemoryRegion::getSize`: `end_address_ - start_address_` in `size_t`
(64-bit unsigned) arithmetic, i.e. the difference modulo `2 ^ 64`. -/
def MemoryRegion.getSize (r : MemoryRegion) : Nat :=
  (((r.end_address : Int) - (r.start_address : Int)) % (ullongMod : Int)).toNat

/-- `MemoryRegion::isAnonymous`. -/
def MemoryRegion.isAnonymous (r : MemoryRegion) : Bool :=
  r.pathname.isEmpty || r.pathname == chars "[anon]"

/-- `ProcessMemoryParser::ErrorCode`. -/
inductive ErrorCode where
  | SUCCESS
  | PROCESS_NOT_FOUND
  | PERMISSION_DENIED
  | FILE_NOT_FOUND
  | PARSE_ERROR
  | PLATFORM_NOT_SUPPORTED
  | UNKNOWN_ERROR
deriving DecidableEq

/-- `ProcessMemoryParser::Result<T>`: a payload (default-constructed in the
error state, exactly as the C++ error constructor leaves `value_`), an error
code and a message. -/
structure Result (T : Type) where
  value : T
  error : ErrorCode
  error_message : List Char
deriving DecidableEq

/-- The success constructor `Result(T&& value)`. -/
def Result.ofValue {T : Type} (v : T) : Result T :=
  ⟨v, ErrorCode.SUCCESS, []⟩

/-- The error constructor `Result(ErrorCode error, const std::string& message)`:
the payload is default-constructed. -/
def Result.ofError {T : Type} [Inhabited T] (e : ErrorCode) (msg : List Char) :
    Result T :=
  ⟨default, e, msg⟩

/-- `Result::isSuccess`. -/
def Result.isSuccess {T : Type} (r : Result T) : Bool :=
  decide (r.error = ErrorCode.SUCCESS)

/-- `Result::hasError`. -/
def Result.hasError {T : Type} (r : Result T) : Bool :=
  decide (r.error ≠ ErrorCode.SUCCESS)

/-- `Result::getValue`: throwing `std::runtime_error` is modelled as
`Except.error` carrying the exception text; the success path returns the
stored payload. -/
def Result.getValue {T : Type} (r : Result T) : Except (List Char) T :=
  if r.hasError then
    Except.error (chars "Attempting to get value from failed result: " ++ r.error_message)
  else
    Except.ok r.value

/-- `ProcessMemoryParser::parseMapsLine`, line by line from the source:
extract five whitespace-delimited tokens (failure discards the line), read
the rest of the line as the pathname and trim leading spaces/tabs, split the
address-range token at its first `-` (absence discards the line), then parse
start/end/offset as unsigned hex and the inode as unsigned decimal (any
exception discards the line).  The inode is truncated to `uint32_t` by the
assignment to the `uint32_t` local. -/
def parseMapsLine (line : List Char) : Option MemoryRegion := do
  let (addr_range, rest1) ← extractToken line
  let (perms, rest2) ← extractToken rest1
  let (offset_str, rest3) ← extractToken rest2
  let (device, rest4) ← extractToken rest3
  let (inode_str, rest5) ← extractToken rest4
  let pathname :=
    (rest5.takeWhile (fun c => c != '\n')).dropWhile (fun c => c = ' ' || c = '\t')
  if addr_range.contains '-' then
    let start_str := addr_range.takeWhile (fun c => c != '-')
    let end_str := (addr_range.dropWhile (fun c => c != '-')).drop 1
    match stoull16 start_str, stoull16 end_str, stoull16 offset_str,
        stoul10 inode_str with
    | some start_addr, some end_addr, some offset, some inode =>
      some { start_address := start_addr
             end_address := end_addr
             permissions := MemoryPermissions.fromString perms
             offset := offset
             device := device
             inode := inode % uint32Mod
             pathname := pathname
             original_line := line }
    | _, _, _, _ => none
  else
    none

/-- The `errno` classes `parseLinuxMaps` distinguishes after a failed
`std::ifstream` open. -/
inductive OpenErrno where
  | ENOENT
  | EACCES
  | other
deriving DecidableEq

/-- Outcome of opening the maps file for a process: either the list of lines
`std::getline(file, line)` delivers, or the `errno` class of the failure. -/
inductive MapsFile where
  | opened (lines : List (List Char))
  | openFailed (err : OpenErrno)
deriving DecidableEq

/-- `std::to_string(pid)` for the `int` process id. -/
def intChars (i : Int) : List Char :=
  if i < 0 then '-' :: Nat.toDigits 10 i.natAbs else Nat.toDigits 10 i.natAbs

/-- `ProcessMemoryParser::getMapsFilePath`. -/
def getMapsFilePath (pid : Int) : List Char :=
  if pid ≤ 0 then chars "/proc/self/maps"
  else chars "/proc/" ++ intChars pid ++ chars "/maps"

/-- `ProcessMemoryParser::shouldIncludeRegion`: `!region_filter_ || region_filter_(region)`,
with the optional `std::function` member modelled as an `Option`. -/
def shouldIncludeRegion (region_filter : Option (MemoryRegion → Bool))
    (region : MemoryRegion) : Bool :=
  match region_filter with
  | none => true
  | some f => f region

/-- `ProcessMemoryParser::parseLinuxMaps`: a failed open is mapped by errno to
one of three error codes; an opened file is read line by line, each line going
through `parseMapsLine` and then the optional region filter, and the call
always returns a success `Result` with the surviving regions. -/
def parseLinuxMaps (region_filter : Option (MemoryRegion → Bool)) (pid : Int)
    (file : MapsFile) : Result (List MemoryRegion) :=
  match file with
  | MapsFile.openFailed OpenErrno.ENOENT =>
    Result.ofError ErrorCode.PROCESS_NOT_FOUND
      (chars "Process not found: " ++ intChars pid)
  | MapsFile.openFailed OpenErrno.EACCES =>
    Result.ofError ErrorCode.PERMISSION_DENIED
      (chars "Permission denied accessing process: " ++ intChars pid)
  | MapsFile.openFailed OpenErrno.other =>
    Result.ofError ErrorCode.FILE_NOT_FOUND
      (chars "Cannot open maps file: " ++ getMapsFilePath pid)
  | MapsFile.opened lines =>
    Result.ofValue <| lines.filterMap fun line =>
      match parseMapsLine line with
      | some region =>
        if shouldIncludeRegion region_filter region then some region else none
      | none => none

/-- `ProcessMemoryParser::parseProcess` on the Linux build target: the facade
dispatches straight to `parseLinuxMaps`. -/
def parseProcess (region_filter : Option (MemoryRegion → Bool)) (pid : Int)
    (file : MapsFile) : Result (List MemoryRegion) :=
  parseLinuxMaps region_filter pid file

/-- `ProcessMemoryParser::findRegionsContaining`: full parse, error
propagated unchanged, else keep the regions whose `contains(address)` holds. -/
def findRegionsContaining (region_filter : Option (MemoryRegion → Bool))
    (address : Nat) (pid : Int) (file : MapsFile) : Result (List MemoryRegion) :=
  let parse_result := parseProcess region_filter pid file
  if parse_result.hasError then parse_result
  else Result.ofValue (parse_result.value.filter fun region => region.contains address)

/-- `hay.find(needle) != std::string::npos`: the needle occurs as a
contiguous substring of the haystack, i.e. it is a prefix of some suffix.
`std::string::find` returns a position (never `npos`) for the empty needle,
which is a prefix of every suffix here. -/
def containsSubstring (hay needle : List Char) : Bool :=
  hay.tails.any fun t => needle.isPrefixOf t

/-- The per-region test of `findRegionsByPath`: exact string equality, or
`std::string::find` substring search. -/
def pathMatches (pathname : List Char) (exact_match : Bool)
    (region : MemoryRegion) : Bool :=
  if exact_match then region.pathname == pathname
  else containsSubstring region.pathname pathname

/-- `ProcessMemoryParser::findRegionsByPath`. -/
def findRegionsByPath (region_filter : Option (MemoryRegion → Bool))
    (pathname : List Char) (pid : Int) (exact_match : Bool) (file : MapsFile) :
    Result (List MemoryRegion) :=
  let parse_result := parseProcess region_filter pid file
  if parse_result.hasError then parse_result
  else Result.ofValue (parse_result.value.filter (pathMatches pathname exact_match))

/-- The per-region test of `findRegionsByPermissions`: `matches` starts true
and each requested-true flag that the region lacks demotes it to false. -/
def permsMatch (requested : MemoryPermissions) (region : MemoryRegion) : Bool :=
  let rp := region.permissions
  !(requested.readable && !rp.readable) &&
  !(requested.writable && !rp.writable) &&
  !(requested.executable && !rp.executable) &&
  !(requested.private_mapping && !rp.private_mapping)

/-- `ProcessMemoryParser::findRegionsByPermissions`. -/
def findRegionsByPermissions (region_filter : Option (MemoryRegion → Bool))
    (permissions : MemoryPermissions) (pid : Int) (file : MapsFile) :
    Result (List MemoryRegion) :=
  let parse_result := parseProcess region_filter pid file
  if parse_result.hasError then parse_result
  else Result.ofValue (parse_result.value.filter (permsMatch permissions))

/-- Fuel-indexed iteration of `extractToken`: the whitespace-delimited tokens
of a line, as the `istringstream` extraction sequence would deliver them. -/
def tokensFuel : Nat → List Char → List (List Char)
  | 0, _ => []
  | fuel + 1, s =>
    match extractToken s with
    | none => []
    | some (t, rest) => t :: tokensFuel fuel rest

/-- The whitespace-delimited tokens of a line (`s.length + 1` fuel always
suffices because each successful extraction strictly shortens the buffer). -/
def tokens (s : List Char) : List (List Char) :=
  tokensFuel (s.length + 1) s

/-- The address sub-parse of `parseMapsLine`: the line's first token, split at
its first `-`, both halves through unsigned-hex `stoull`. -/
def lineAddresses (line : List Char) : Option (Nat × Nat) := do
  let (addr_range, _) ← extractToken line
  if addr_range.contains '-' then
    let s ← stoull16 (addr_range.takeWhile (fun c => c != '-'))
    let e ← stoull16 ((addr_range.dropWhile (fun c => c != '-')).drop 1)
    some (s, e)
  else
    none

/-! ## Concrete inputs used by the theorems -/

/-- A well-formed maps line with an anonymous (absent) pathname. -/
def anonLine : List Char := chars "1000-2000 rw-p 00000000 00:00 0"

/-- A line whose address range is reversed: start value `0x2000`, end value
`0x1000`. -/
def reversedLine : List Char := chars "2000-1000 r-xp 00000000 08:01 0"

/-- The region `parseMapsLine` produces for `reversedLine`. -/
def reversedRegion : MemoryRegion :=
  { start_address := 0x2000
    end_address := 0x1000
    permissions := ⟨true, false, true, true⟩
    offset := 0
    device := chars "08:01"
    inode := 0
    pathname := []
    original_line := reversedLine }

/-- Scenario E of the spec: an `r-xp` region and an `rw-p` region. -/
def scenarioELines : List (List Char) :=
  [chars "1000-2000 r-xp 00000000 08:01 42 /usr/bin/true",
   chars "3000-4000 rw-p 00000000 08:01 43 /data/app"]

/-! ## Claim theorems -/

/-- C4: for every permission value `p`, `fromString (toString p) = p`:
`toString` renders exactly four position-significant characters and
`fromString` recovers each flag from its position, so the round trip is the
identity on canonical forms. -/
theorem fromString_toString_roundtrip (p : MemoryPermissions) :
    MemoryPermissions.fromString (MemoryPermissions.toString p) = p ∧
    (MemoryPermissions.toString p).length = 4 := by
  obtain ⟨r, w, x, pm⟩ := p
  cases r <;> cases w <;> cases x <;> cases pm <;> exact ⟨by decide, by decide⟩

/-- C5: `contains` is the half-open interval test: `r.contains a` holds iff
`start ≤ a < end`; `contains end` is always false; `contains start` is true
whenever `start < end`; and on the region `[0x1000, 0x2000)` the three
concrete checks of Scenario D come out as specified. -/
theorem contains_half_open (r : MemoryRegion) (a : Nat) :
    (r.contains a = true ↔ r.start_address ≤ a ∧ a < r.end_address) ∧
    r.contains r.end_address = false ∧
    (r.start_address < r.end_address → r.contains r.start_address = true) ∧
    (MemoryRegion.contains { start_address := 0x1000, end_address := 0x2000 } 0x1500 = true ∧
     MemoryRegion.contains { start_address := 0x1000, end_address := 0x2000 } 0x2000 = false ∧
     MemoryRegion.contains { start_address := 0x1000, end_address := 0x2000 } 0xFFF = false) := by
  refine ⟨?_, ?_, fun h => ?_, by decide, by decide, by decide⟩ <;>
    simp [MemoryRegion.contains] <;> omega

/-- C6: a `Result` in the error state (error code not `SUCCESS`, i.e.
`hasError`) answers `getValue` with a thrown exception (`Except.error`
carrying the exception text), never with the default-constructed payload; a
`Result` in the success state returns its payload without failure. -/
theorem getValue_error_state_throws {T : Type} (r : Result T) :
    (r.hasError = true ↔ r.error ≠ ErrorCode.SUCCESS) ∧
    (r.hasError = true →
      r.getValue =
        Except.error (chars "Attempting to get value from failed result: " ++ r.error_message)) ∧
    (r.hasError = false → r.getValue = Except.ok r.value) := by
  refine ⟨by simp [Result.hasError], fun h => by simp [Result.getValue, h],
    fun h => by simp [Result.getValue, h]⟩

/-- C8: a failed open of the maps source is mapped by errno to three distinct
error codes — `ENOENT` to `PROCESS_NOT_FOUND`, `EACCES` to
`PERMISSION_DENIED`, anything else to `FILE_NOT_FOUND` — and every such
outcome is an error `Result` whose region payload is empty. -/
theorem open_failure_error_codes (region_filter : Option (MemoryRegion → Bool))
    (pid : Int) (e : OpenErrno) :
    (parseLinuxMaps region_filter pid (MapsFile.openFailed OpenErrno.ENOENT)).error =
      ErrorCode.PROCESS_NOT_FOUND ∧
    (parseLinuxMaps region_filter pid (MapsFile.openFailed OpenErrno.EACCES)).error =
      ErrorCode.PERMISSION_DENIED ∧
    (parseLinuxMaps region_filter pid (MapsFile.openFailed OpenErrno.other)).error =
      ErrorCode.FILE_NOT_FOUND ∧
    (ErrorCode.PROCESS_NOT_FOUND ≠ ErrorCode.PERMISSION_DENIED ∧
     ErrorCode.PROCESS_NOT_FOUND ≠ ErrorCode.FILE_NOT_FOUND ∧
     ErrorCode.PERMISSION_DENIED ≠ ErrorCode.FILE_NOT_FOUND) ∧
    (parseLinuxMaps region_filter pid (MapsFile.openFailed e)).hasError = true ∧
    (parseLinuxMaps region_filter pid (MapsFile.openFailed e)).value = [] := by
  refine ⟨rfl, rfl, rfl, by decide, ?_, ?_⟩ <;> cases e <;> rfl

/-- Helper: membership in a `filter` is membership plus the predicate. -/
theorem mem_value_filter {p : MemoryRegion → Bool} {l : List MemoryRegion}
    {r : MemoryRegion} : r ∈ l.filter p ↔ r ∈ l ∧ p r = true :=
  List.mem_filter

/-- Helper: the four-demotion test of `findRegionsByPermissions` succeeds iff
every requested-true flag is also set on the region. -/
theorem permsMatch_iff (req : MemoryPermissions) (r : MemoryRegion) :
    permsMatch req r = true ↔
      ((req.readable = true → r.permissions.readable = true) ∧
       (req.writable = true → r.permissions.writable = true) ∧
       (req.executable = true → r.permissions.executable = true) ∧
       (req.private_mapping = true → r.permissions.private_mapping = true)) := by
  obtain ⟨a, b, c, d⟩ := req
  obtain ⟨rs, re, rp, ro, rd, ri, rpath, rline⟩ := r
  obtain ⟨e, f, g, k⟩ := rp
  simp only [permsMatch]
  cases a <;> cases b <;> cases c <;> cases d <;>
    cases e <;> cases f <;> cases g <;> cases k <;> decide

/-- C9: `findRegionsContaining` propagates a failed parse unchanged; on a
successful parse it succeeds, returns a subsequence of the full parse's
regions, every returned region contains the address, and when no parsed
region contains the address the result is the empty success `Result`, not an
error. -/
theorem findRegionsContaining_subset (region_filter : Option (MemoryRegion → Bool))
    (address : Nat) (pid : Int) (file : MapsFile) :
    ((parseProcess region_filter pid file).hasError = true →
       findRegionsContaining region_filter address pid file =
         parseProcess region_filter pid file) ∧
    ((parseProcess region_filter pid file).hasError = false →
       (findRegionsContaining region_filter address pid file).hasError = false ∧
       List.Sublist (findRegionsContaining region_filter address pid file).value
         (parseProcess region_filter pid file).value ∧
       (∀ r ∈ (findRegionsContaining region_filter address pid file).value,
          r.contains address = true) ∧
       ((∀ r ∈ (parseProcess region_filter pid file).value, r.contains address = false) →
          findRegionsContaining region_filter address pid file = Result.ofValue [])) := by
  constructor
  · intro h
    simp [findRegionsContaining, h]
  · intro h
    simp only [findRegionsContaining, h, Bool.false_eq_true, if_false]
    refine ⟨rfl, List.filter_sublist _, fun r hr => (mem_value_filter.mp hr).2, fun hall => ?_⟩
    have : (parseProcess region_filter pid file).value.filter
        (fun region => region.contains address) = [] := by
      rw [List.filter_eq_nil_iff]
      intro a ha
      simp [hall a ha]
    rw [this]

/-- C3: `findRegionsByPermissions` never fails on a successful parse and
retains exactly the regions on which every requested-true flag is also true;
requested-false flags impose no constraint.  On Scenario E's region set,
requesting only `executable` returns the `r-xp` region alone (by its start
address), even though its read flag is true and unrequested. -/
theorem findRegionsByPermissions_requested_subset
    (region_filter : Option (MemoryRegion → Bool)) (req : MemoryPermissions)
    (pid : Int) (lines : List (List Char)) (r : MemoryRegion) :
    (findRegionsByPermissions region_filter req pid (MapsFile.opened lines)).hasError = false ∧
    (r ∈ (findRegionsByPermissions region_filter req pid (MapsFile.opened lines)).value ↔
       r ∈ (parseProcess region_filter pid (MapsFile.opened lines)).value ∧
       ((req.readable = true → r.permissions.readable = true) ∧
        (req.writable = true → r.permissions.writable = true) ∧
        (req.executable = true → r.permissions.executable = true) ∧
        (req.private_mapping = true → r.permissions.private_mapping = true))) ∧
    ((findRegionsByPermissions none ⟨false, false, true, false⟩ (-1)
        (MapsFile.opened scenarioELines)).value.map fun reg => reg.start_address) =
      [0x1000] := by
  refine ⟨?_, ?_, by decide⟩
  · simp [findRegionsByPermissions, parseProcess, parseLinuxMaps,
      Result.ofValue, Result.hasError]
  · have hne : (parseProcess region_filter pid (MapsFile.opened lines)).hasError = false := by
      simp [parseProcess, parseLinuxMaps, Result.ofValue, Result.hasError]
    simp only [findRegionsByPermissions, hne, Bool.false_eq_true, if_false]
    rw [show (Result.ofValue ((parseProcess region_filter pid
        (MapsFile.opened lines)).value.filter (permsMatch req))).value =
        (parseProcess region_filter pid (MapsFile.opened lines)).value.filter
          (permsMatch req) from rfl]
    rw [mem_value_filter, permsMatch_iff]

/-- C1 counterexample: over a parse containing an anonymous region (empty
pathname), `findRegionsByPath` with the empty search string and
`exactMatch=false` does include that anonymous region — `std::string::find`
of an empty needle never returns `npos`, not even on an empty pathname. -/
theorem findRegionsByPath_empty_matches_anonymous :
    (findRegionsByPath none [] (-1) false (MapsFile.opened [anonLine])).hasError = false ∧
    ((findRegionsByPath none [] (-1) false (MapsFile.opened [anonLine])).value.any
        fun r => r.pathname.isEmpty) = true := by
  exact ⟨by decide, by decide⟩

/-- Helper: the empty needle is a substring of every string (`find` returns
position 0, never `npos`). -/
theorem containsSubstring_empty_needle (hay : List Char) :
    containsSubstring hay [] = true := by
  refine List.any_eq_true.mpr ⟨hay, ?_, ?_⟩
  · exact (List.mem_tails _ _).mpr List.suffix_rfl
  · cases hay <;> rfl

/-- C1 amended: `findRegionsByPath` with the empty search string and
`exactMatch=false` returns the full parse result unchanged — every parsed
region, anonymous (empty-pathname) regions included; a failed parse is
propagated as is. -/
theorem findRegionsByPath_empty_returns_all
    (region_filter : Option (MemoryRegion → Bool)) (pid : Int) (file : MapsFile) :
    findRegionsByPath region_filter [] pid false file =
      parseProcess region_filter pid file := by
  cases file with
  | openFailed e => cases e <;> rfl
  | opened lines =>
    have hne : (parseProcess region_filter pid (MapsFile.opened lines)).hasError = false := by
      simp [parseProcess, parseLinuxMaps, Result.ofValue, Result.hasError]
    simp only [findRegionsByPath, hne, Bool.false_eq_true, if_false]
    have hall : (parseProcess region_filter pid (MapsFile.opened lines)).value.filter
        (pathMatches [] false) =
        (parseProcess region_filter pid (MapsFile.opened lines)).value := by
      refine List.filter_eq_self.mpr fun r _ => ?_
      simp [pathMatches, containsSubstring_empty_needle]
    rw [hall]
    simp [parseProcess, parseLinuxMaps, Result.ofValue]

/-- C2 counterexample: the per-line parser accepts a line whose address range
is reversed and produces a region with `start_address > end_address`; the
claimed invariant `start ≤ end` does not hold for every produced region. -/
theorem parseMapsLine_reversed_range :
    ((parseMapsLine reversedLine).map fun r => decide (r.start_address ≤ r.end_address)) =
      some false := by decide

/-- C2 amended: the per-line parser performs no ordering check on the two
addresses — it stores the line's parsed start and end hex values verbatim, so
a produced region satisfies `start ≤ end` exactly when the line's parsed
start value is at most its parsed end value, and a reversed range yields a
region with `start > end`. -/
theorem parseMapsLine_addresses_verbatim (line : List Char) (r : MemoryRegion)
    (h : parseMapsLine line = some r) :
    lineAddresses line = some (r.start_address, r.end_address) := by
  unfold parseMapsLine at h
  unfold lineAddresses
  rcases h1 : extractToken line with _ | ⟨addr_range, rest1⟩
  · rw [h1] at h; simp at h
  · rw [h1] at h
    simp only [Option.bind_eq_bind, Option.some_bind] at h ⊢
    rcases h2 : extractToken rest1 with _ | ⟨perms, rest2⟩
    · rw [h2] at h; simp at h
    · rw [h2] at h
      simp only [Option.some_bind] at h
      rcases h3 : extractToken rest2 with _ | ⟨offset_str, rest3⟩
      · rw [h3] at h; simp at h
      · rw [h3] at h
        simp only [Option.some_bind] at h
        rcases h4 : extractToken rest3 with _ | ⟨device, rest4⟩
        · rw [h4] at h; simp at h
        · rw [h4] at h
          simp only [Option.some_bind] at h
          rcases h5 : extractToken rest4 with _ | ⟨inode_str, rest5⟩
          · rw [h5] at h; simp at h
          · rw [h5] at h
            simp only [Option.some_bind] at h
            by_cases hd : addr_range.contains '-'
            · simp only [hd, if_true] at h ⊢
              rcases hs : stoull16 (addr_range.takeWhile fun c => c != '-') with _ | sv
              · rw [hs] at h; simp at h
              · rw [hs] at h
                simp only [Option.some_bind] at h ⊢
                rcases he : stoull16 ((addr_range.dropWhile fun c => c != '-').drop 1) with _ | ev
                · rw [he] at h; simp at h
                · rw [he] at h
                  simp only [Option.some_bind] at h ⊢
                  rcases ho : stoull16 offset_str with _ | ov
                  · rw [ho] at h; simp at h
                  · rw [ho] at h
                    rcases hi : stoul10 inode_str with _ | iv
                    · rw [hi] at h; simp at h
                    · rw [hi] at h
                      simp only [Option.some.injEq] at h
                      subst h
                      rfl
            · simp only [hd, if_false] at h
              simp at h

/-- Witness for the C2 amended theorem at the concrete reversed-range line. -/
theorem parseMapsLine_addresses_verbatim_witness :
    lineAddresses reversedLine =
      some (reversedRegion.start_address, reversedRegion.end_address) :=
  parseMapsLine_addresses_verbatim reversedLine reversedRegion (by decide)

/-- C10: `getSize` is `end - start` in 64-bit unsigned arithmetic: on an
in-order region it is the exact difference, and when a backend supplies
`end < start` — which `parseMapsLine` accepts, as the reversed-range line
shows — it wraps modulo `2 ^ 64` to the huge nonzero value
`2 ^ 64 - (start - end)` instead of failing or yielding zero. -/
theorem getSize_wraps_modulo (r : MemoryRegion)
    (h1 : r.start_address < ullongMod) (h2 : r.end_address < ullongMod) :
    (r.start_address ≤ r.end_address → r.getSize = r.end_address - r.start_address) ∧
    (r.end_address < r.start_address →
       r.getSize = ullongMod - (r.start_address - r.end_address) ∧ 0 < r.getSize) ∧
    parseMapsLine reversedLine = some reversedRegion ∧
    reversedRegion.end_address < reversedRegion.start_address ∧
    reversedRegion.getSize = ullongMod - 0x1000 := by
  refine ⟨fun hle => ?_, fun hlt => ⟨?_, ?_⟩, by decide, by decide, by decide⟩ <;>
    (norm_num [MemoryRegion.getSize, ullongMod] at *) <;> omega

/-- Witness for C10 at the region parsed from the reversed-range line. -/
theorem getSize_wraps_modulo_witness :
    reversedRegion.getSize = ullongMod - 0x1000 :=
  (getSize_wraps_modulo reversedRegion (by decide) (by decide)).2.2.2.2


/-- Helper: the head surviving a `dropWhile` fails the predicate. -/
theorem dropWhile_head_false {q : Char → Bool} :
    ∀ (l : List Char) {c : Char} {cs : List Char}, l.dropWhile q = c :: cs → q c = false
  | [], _, _, h => by simp at h
  | a :: as, c, cs, h => by
    by_cases ha : q a = true
    · rw [List.dropWhile_cons_of_pos ha] at h
      exact dropWhile_head_false as h
    · rw [List.dropWhile_cons_of_neg ha] at h
      cases h
      simpa using ha

/-- Helper: `dropWhile` never lengthens a list. -/
theorem length_dropWhile_le (q : Char → Bool) :
    ∀ (l : List Char), (l.dropWhile q).length ≤ l.length
  | [] => Nat.le_refl _
  | a :: as => by
    by_cases ha : q a = true
    · rw [List.dropWhile_cons_of_pos ha]
      exact Nat.le_succ_of_le (length_dropWhile_le q as)
    · rw [List.dropWhile_cons_of_neg ha]

/-- Helper: a successful extraction strictly shortens the unread buffer. -/
theorem extractToken_shrinks {s t rest : List Char}
    (h : extractToken s = some (t, rest)) : rest.length < s.length := by
  unfold extractToken at h
  rcases hd : s.dropWhile isCppSpace with _ | ⟨c, cs⟩
  · rw [hd] at h; simp at h
  · rw [hd] at h
    simp only [List.isEmpty_cons, Bool.false_eq_true, if_false, Option.some.injEq,
      Prod.mk.injEq] at h
    have hc : isCppSpace c = false := dropWhile_head_false s hd
    have hrl : rest.length = ((c :: cs).dropWhile fun x => !isCppSpace x).length := by
      rw [← h.2]
    have hlen1 : ((c :: cs).dropWhile fun x => !isCppSpace x).length ≤ cs.length := by
      rw [List.dropWhile_cons_of_pos (by simp [hc])]
      exact length_dropWhile_le _ _
    have hlen2 : (s.dropWhile isCppSpace).length ≤ s.length := length_dropWhile_le _ _
    rw [hd] at hlen2
    simp only [List.length_cons] at hlen2
    omega

/-- Helper: no token is extracted from an all-whitespace or empty buffer. -/
theorem tokens_of_none {s : List Char} (h : extractToken s = none) : tokens s = [] := by
  unfold tokens tokensFuel
  rw [h]

/-- Helper: any sufficient fuel computes the same token list. -/
theorem tokensFuel_congr :
    ∀ (f1 f2 : Nat) (s : List Char), s.length < f1 → s.length < f2 →
      tokensFuel f1 s = tokensFuel f2 s
  | 0, _, _, h1, _ => absurd h1 (by omega)
  | _ + 1, 0, _, _, h2 => absurd h2 (by omega)
  | f1 + 1, f2 + 1, s, h1, h2 => by
    unfold tokensFuel
    rcases h : extractToken s with _ | ⟨t, rest⟩
    · rfl
    · have hlt := extractToken_shrinks h
      dsimp only
      rw [tokensFuel_congr f1 f2 rest (by omega) (by omega)]

/-- Helper: a successful extraction peels the first token off `tokens`. -/
theorem tokens_of_some {s t rest : List Char} (h : extractToken s = some (t, rest)) :
    tokens s = t :: tokens rest := by
  have hlt := extractToken_shrinks h
  unfold tokens
  conv =>
    lhs
    unfold tokensFuel
  rw [h]
  dsimp only
  rw [tokensFuel_congr s.length (rest.length + 1) rest (by omega) (by omega)]

/-- Helper: parsing-then-filtering each line equals parsing every line and
filtering the resulting regions. -/
theorem filterMap_filter_comm (p : MemoryRegion → Bool) :
    ∀ (l : List (List Char)),
      (l.filterMap fun line =>
        match parseMapsLine line with
        | some r => if p r then some r else none
        | none => none) =
      (l.filterMap parseMapsLine).filter p
  | [] => rfl
  | x :: xs => by
    rw [List.filterMap_cons, List.filterMap_cons]
    rcases h : parseMapsLine x with _ | r
    · exact filterMap_filter_comm p xs
    · by_cases hp : p r = true
      · simp only [hp, if_true, List.filter_cons, filterMap_filter_comm p xs]
      · simp only [hp, if_false, List.filter_cons, filterMap_filter_comm p xs]
        simp [hp]

/-- C7: during text-backend parsing, a line with fewer than five
whitespace-delimited tokens, a line whose address-range token lacks a `-`,
and a line whose start/end addresses or offset fail the unsigned-hex parse or
whose inode fails the unsigned-decimal parse all contribute no region, while
the overall parse still succeeds, returning exactly the regions of the
surviving lines; in particular the single input line `"junk"` yields zero
regions and a successful `Result`. -/
theorem malformed_lines_skipped (region_filter : Option (MemoryRegion → Bool))
    (pid : Int) (lines : List (List Char)) (line : List Char) :
    ((tokens line).length < 5 → parseMapsLine line = none) ∧
    (∀ a, (tokens line).head? = some a → a.contains '-' = false →
       parseMapsLine line = none) ∧
    (∀ a, (tokens line).head? = some a → a.contains '-' = true →
       (stoull16 (a.takeWhile fun c => c != '-') = none ∨
        stoull16 ((a.dropWhile fun c => c != '-').drop 1) = none) →
       parseMapsLine line = none) ∧
    (∀ o, (tokens line)[2]? = some o → stoull16 o = none → parseMapsLine line = none) ∧
    (∀ i, (tokens line)[4]? = some i → stoul10 i = none → parseMapsLine line = none) ∧
    (parseLinuxMaps region_filter pid (MapsFile.opened lines)).hasError = false ∧
    (parseLinuxMaps region_filter pid (MapsFile.opened lines)).value =
      (lines.filterMap parseMapsLine).filter (shouldIncludeRegion region_filter) ∧
    parseLinuxMaps none (-1) (MapsFile.opened [chars "junk"]) = Result.ofValue [] := by
  have hok : (parseLinuxMaps region_filter pid (MapsFile.opened lines)).hasError = false := by
    simp [parseLinuxMaps, Result.ofValue, Result.hasError]
  have hcomm : (parseLinuxMaps region_filter pid (MapsFile.opened lines)).value =
      (lines.filterMap parseMapsLine).filter (shouldIncludeRegion region_filter) := by
    simp only [parseLinuxMaps, Result.ofValue]
    exact filterMap_filter_comm _ lines
  have main : ((tokens line).length < 5 → parseMapsLine line = none) ∧
      (∀ a, (tokens line).head? = some a → a.contains '-' = false →
         parseMapsLine line = none) ∧
      (∀ a, (tokens line).head? = some a → a.contains '-' = true →
         (stoull16 (a.takeWhile fun c => c != '-') = none ∨
          stoull16 ((a.dropWhile fun c => c != '-').drop 1) = none) →
         parseMapsLine line = none) ∧
      (∀ o, (tokens line)[2]? = some o → stoull16 o = none → parseMapsLine line = none) ∧
      (∀ i, (tokens line)[4]? = some i → stoul10 i = none → parseMapsLine line = none) := by
    rcases h1 : extractToken line with _ | ⟨t1, r1⟩
    · have hnone : parseMapsLine line = none := by
        simp only [parseMapsLine, h1, Option.bind_eq_bind, Option.none_bind]
      exact ⟨fun _ => hnone, fun _ _ _ => hnone, fun _ _ _ _ => hnone,
        fun _ _ _ => hnone, fun _ _ _ => hnone⟩
    · rcases h2 : extractToken r1 with _ | ⟨t2, r2⟩
      · have hnone : parseMapsLine line = none := by
          simp only [parseMapsLine, h1, h2, Option.bind_eq_bind, Option.some_bind,
            Option.none_bind]
        exact ⟨fun _ => hnone, fun _ _ _ => hnone, fun _ _ _ _ => hnone,
          fun _ _ _ => hnone, fun _ _ _ => hnone⟩
      · rcases h3 : extractToken r2 with _ | ⟨t3, r3⟩
        · have hnone : parseMapsLine line = none := by
            simp only [parseMapsLine, h1, h2, h3, Option.bind_eq_bind, Option.some_bind,
              Option.none_bind]
          exact ⟨fun _ => hnone, fun _ _ _ => hnone, fun _ _ _ _ => hnone,
            fun _ _ _ => hnone, fun _ _ _ => hnone⟩
        · rcases h4 : extractToken r3 with _ | ⟨t4, r4⟩
          · have hnone : parseMapsLine line = none := by
              simp only [parseMapsLine, h1, h2, h3, h4, Option.bind_eq_bind,
                Option.some_bind, Option.none_bind]
            exact ⟨fun _ => hnone, fun _ _ _ => hnone, fun _ _ _ _ => hnone,
              fun _ _ _ => hnone, fun _ _ _ => hnone⟩
          · rcases h5 : extractToken r4 with _ | ⟨t5, r5⟩
            · have hnone : parseMapsLine line = none := by
                simp only [parseMapsLine, h1, h2, h3, h4, h5, Option.bind_eq_bind,
                  Option.some_bind, Option.none_bind]
              exact ⟨fun _ => hnone, fun _ _ _ => hnone, fun _ _ _ _ => hnone,
                fun _ _ _ => hnone, fun _ _ _ => hnone⟩
            · have htok : tokens line = t1 :: t2 :: t3 :: t4 :: t5 :: tokens r5 := by
                rw [tokens_of_some h1, tokens_of_some h2, tokens_of_some h3,
                  tokens_of_some h4, tokens_of_some h5]
              refine ⟨fun hlen => ?_, fun a ha hd => ?_, fun a ha hd hno => ?_,
                fun o ho hno => ?_, fun i hi hno => ?_⟩
              · rw [htok] at hlen
                simp only [List.length_cons] at hlen
                omega
              · rw [htok] at ha
                simp only [List.head?_cons, Option.some.injEq] at ha
                subst ha
                simp only [parseMapsLine, h1, h2, h3, h4, h5, Option.bind_eq_bind,
                  Option.some_bind, hd, Bool.false_eq_true, if_false]
              · rw [htok] at ha
                simp only [List.head?_cons, Option.some.injEq] at ha
                subst ha
                simp only [parseMapsLine, h1, h2, h3, h4, h5, Option.bind_eq_bind,
                  Option.some_bind, hd, if_true]
                rcases hno with hs | he
                · rw [hs]
                · rcases hss : stoull16 (t1.takeWhile fun c => c != '-') with _ | sv
                  · rfl
                  · rw [he]
              · rw [htok] at ho
                simp only [List.getElem?_cons_succ, List.getElem?_cons_zero,
                  Option.some.injEq] at ho
                subst ho
                simp only [parseMapsLine, h1, h2, h3, h4, h5, Option.bind_eq_bind,
                  Option.some_bind]
                by_cases hd : t1.contains '-' = true
                · simp only [hd, if_true]
                  rcases hss : stoull16 (t1.takeWhile fun c => c != '-') with _ | sv
                  · rfl
                  · rcases hse : stoull16 ((t1.dropWhile fun c => c != '-').drop 1) with _ | ev
                    · rfl
                    · rw [hno]
                · simp only [hd, Bool.false_eq_true, if_false]
              · rw [htok] at hi
                simp only [List.getElem?_cons_succ, List.getElem?_cons_zero,
                  Option.some.injEq] at hi
                subst hi
                simp only [parseMapsLine, h1, h2, h3, h4, h5, Option.bind_eq_bind,
                  Option.some_bind]
                by_cases hd : t1.contains '-' = true
                · simp only [hd, if_true]
                  rcases hss : stoull16 (t1.takeWhile fun c => c != '-') with _ | sv
                  · rfl
                  · rcases hse : stoull16 ((t1.dropWhile fun c => c != '-').drop 1) with _ | ev
                    · rfl
                    · rcases hso : stoull16 t3 with _ | ov
                      · rfl
                      · rw [hno]
                · simp only [hd, Bool.false_eq_true, if_false]
  exact ⟨main.1, main.2.1, main.2.2.1, main.2.2.2.1, main.2.2.2.2, hok, hcomm, by decide⟩

end AnalysisToolkit
